import Mathlib

/-!
# Verification of `drivers/routed/netfilter.go` (medallia/libnetwork)

Shallow embedding of the routed driver's ingress net-filter: the allowlist
parser (`ParseIPRange`, `ParseIPOrNet`, `NetFilterConfigParse`), the filter
constructor (`newNetFilter`), the rule compiler and lifecycle
(`applyFiltering`, `removeFiltering`), and the sequential rule executor
(`iptablesRules.apply`, `applyIPTablesRule`).

Addresses are modelled as the `Nat` value of their bits: 32 bits for IPv4,
128 bits for IPv6 (`IPAddr` keeps the family).  The Go standard-library
helpers the source calls (`strings.Split`, `strings.TrimSpace`,
`strings.Contains`, `net.ParseIP` with its internal `parseIPv4` and
`parseIPv6`, `net.ParseCIDR`, and the `IP`/`IPNet` printers) are modelled on
the character list of a `String`, following the Go implementations — in
particular `ParseCIDR` tries the IPv4 dotted-quad form first and falls back
to IPv6, with the prefix-length bound depending on the family.

The `iptables` and `netlabel` packages of the repository are external to the
source file; the backend they provide is modelled from the spec (§6) as an
abstract `Backend` (raw command execution plus a chain-existence query),
together with one concrete instance, `iptablesBackend`, over a filter table
of named chains.
-/

namespace Routed

/-! ## Go string helpers (modelled from the Go standard library) -/

/-- Model of `strings.Split(s, sep)` for a one-character separator, on
character lists: split around every instance of the separator.  Always
returns at least one part. -/
def splitChar (sep : Char) : List Char → List (List Char)
  | [] => [[]]
  | c :: rest =>
    match splitChar sep rest with
    | [] => [[]]
    | t :: ts => if c = sep then [] :: t :: ts else (c :: t) :: ts

/-- `strings.Split` on strings, one-character separator. -/
def goSplit (sep : Char) (s : String) : List String :=
  (splitChar sep s.data).map String.mk

/-- Model of `strings.Contains(s, c)` for a one-character substring. -/
def goContains (s : String) (c : Char) : Bool :=
  s.data.contains c

/-- ASCII whitespace, as recognised by `unicode.IsSpace`. -/
def isSpaceChar (c : Char) : Bool :=
  c = ' ' || c = '\t' || c = '\n' || c = '\x0b' || c = '\x0c' || c = '\r'

/-- Model of `strings.TrimSpace` (ASCII): drop leading and trailing
whitespace. -/
def trimSpace (s : String) : String :=
  String.mk (((s.data.dropWhile isSpaceChar).reverse.dropWhile isSpaceChar).reverse)

/-! ## Addresses (model of the `net` package)

`net.ParseIP` accepts IPv4 dotted-quad and IPv6 text forms, dispatching on
the first `.` or `:` it sees; `net.ParseCIDR` tries the internal
`parseIPv4` first and falls back to `parseIPv6`, bounding the prefix length
by the family's bit width.  An address value is the `Nat` of its bits. -/

/-- Numeric value of a decimal digit string, most significant first. -/
def digitsToNat (l : List Char) : Nat :=
  l.foldl (fun n c => n * 10 + (c.toNat - '0'.toNat)) 0

/-- Model of one dotted-quad field of Go's internal `net.parseIPv4`:
non-empty, decimal digits only, no leading zero, value at most 255. -/
def parseOctet (s : String) : Option Nat :=
  let l := s.data
  if l ≠ [] && l.all Char.isDigit && (l.length = 1 || l.head? ≠ some '0') then
    let n := digitsToNat l
    if n ≤ 255 then some n else none
  else none

/-- Model of Go's internal `net.parseIPv4`: four octet fields separated by
dots.  The result is the 32-bit value of the address. -/
def parseIPv4 (s : String) : Option Nat :=
  match goSplit '.' s with
  | [a, b, c, d] => do
    let va ← parseOctet a
    let vb ← parseOctet b
    let vc ← parseOctet c
    let vd ← parseOctet d
    pure (va * 16777216 + vb * 65536 + vc * 256 + vd)
  | _ => none

/-- Hex digit, as accepted by Go's `xtoi` (0-9, a-f, A-F). -/
def isHexChar (c : Char) : Bool :=
  if c.isDigit then true
  else if 'a' ≤ c ∧ c ≤ 'f' then true
  else if 'A' ≤ c ∧ c ≤ 'F' then true
  else false

def hexCharVal (c : Char) : Nat :=
  if c.isDigit then c.toNat - '0'.toNat
  else if 'a' ≤ c ∧ c ≤ 'f' then c.toNat - 'a'.toNat + 10
  else c.toNat - 'A'.toNat + 10

/-- Value of a hex digit string, most significant first. -/
def hexVal (l : List Char) : Nat :=
  l.foldl (fun n c => n * 16 + hexCharVal c) 0

/-- 128-bit value of a 16-byte address. -/
def bytesToNat (l : List Nat) : Nat :=
  l.foldl (fun n b => n * 256 + b) 0

/-- The group-parsing loop of Go's internal `net.parseIPv6`, on the input
after any leading `::`.  `bytes` are the address bytes filled so far and
`ellipsis` the byte position of a `::` already seen.  Per iteration: read a
hex group via `xtoi` (at least one digit, overflow at 0xFFFFFF, value at
most 0xFFFF); a following `.` switches to a trailing dotted-quad (only at
byte 12 unless an ellipsis is present, and only if four bytes still fit);
otherwise store the two group bytes and consume `:` (a second `:` records
the single allowed ellipsis).  The loop runs while fewer than 16 bytes are
filled and consumes at least one character per iteration, so the input
length bounds the iteration count (the `fuel`). -/
def parseIPv6Loop : Nat → List Char → List Nat → Option Nat →
    Option (List Nat × Option Nat)
  | 0, _, _, _ => none
  | fuel + 1, s, bytes, ellipsis =>
    if 16 ≤ bytes.length then
      if s = [] then some (bytes, ellipsis) else none
    else
      let p := s.takeWhile isHexChar
      let rest := s.drop p.length
      if p = [] then none
      else if 16777215 ≤ hexVal p then none
      else if 65535 < hexVal p then none
      else if rest.head? = some '.' then
        if ellipsis = none ∧ bytes.length ≠ 12 then none
        else if 16 < bytes.length + 4 then none
        else
          match parseIPv4 (String.mk s) with
          | some v4 =>
            some (bytes ++ [v4 / 16777216, v4 / 65536 % 256, v4 / 256 % 256, v4 % 256],
              ellipsis)
          | none => none
      else
        let n := hexVal p
        let bytes := bytes ++ [n / 256, n % 256]
        if rest = [] then some (bytes, ellipsis)
        else if rest.head? ≠ some ':' ∨ rest.length = 1 then none
        else
          let rest1 := rest.drop 1
          if rest1.head? = some ':' then
            if ellipsis.isSome then none
            else
              let rest2 := rest1.drop 1
              if rest2 = [] then some (bytes, some bytes.length)
              else parseIPv6Loop fuel rest2 bytes (some bytes.length)
          else parseIPv6Loop fuel rest1 bytes ellipsis

/-- Model of Go's internal `net.parseIPv6`: optional leading `::` (a bare
`::` is the zero address), the group loop, then the whole string must be
consumed; fewer than 16 bytes requires an ellipsis, which is expanded with
zero bytes at its position, and an ellipsis with all 16 bytes already
present is invalid.  The result is the 128-bit value. -/
def parseIPv6 (s : List Char) : Option Nat :=
  let ellipsis0 : Option Nat := if s.take 2 = [':', ':'] then some 0 else none
  let s1 := if s.take 2 = [':', ':'] then s.drop 2 else s
  if ellipsis0 = some 0 ∧ s1 = [] then some 0
  else
    match parseIPv6Loop (s1.length + 1) s1 [] ellipsis0 with
    | none => none
    | some (bytes, ellipsis) =>
      if bytes.length = 16 then
        match ellipsis with
        | some _ => none
        | none => some (bytesToNat bytes)
      else
        match ellipsis with
        | none => none
        | some e =>
          some (bytesToNat
            (bytes.take e ++ List.replicate (16 - bytes.length) 0 ++ bytes.drop e))

/-- An address with its family: the 32-bit or 128-bit value. -/
inductive IPAddr where
  | v4 (val : Nat)
  | v6 (val : Nat)
  deriving DecidableEq, Repr

/-- Model of `net.ParseIP`: scan for the first `.` or `:`; a dot selects the
dotted-quad parser, a colon the IPv6 parser, neither fails. -/
def parseIP (s : String) : Option IPAddr :=
  match s.data.find? (fun c => c == '.' || c == ':') with
  | some '.' => (parseIPv4 s).map IPAddr.v4
  | some ':' => (parseIPv6 s.data).map IPAddr.v6
  | _ => none

/-- Prefix-length field of a CIDR (model of `net.ParseCIDR`'s `dtoi` use):
non-empty decimal digits, value at most the family's bit width `limit`. -/
def parseMaskBits (limit : Nat) (s : String) : Option Nat :=
  let l := s.data
  if l ≠ [] && l.all Char.isDigit then
    let n := digitsToNat l
    if n ≤ limit then some n else none
  else none

/-- Keep the top `p` bits of the `w`-bit value `x` (Go's `IP.Mask` with
`CIDRMask p w`). -/
def maskBits (w p x : Nat) : Nat :=
  x / 2 ^ (w - p) * 2 ^ (w - p)

/-- Dotted-quad rendering of a 32-bit address. -/
def ipToString (ip : Nat) : String :=
  toString (ip / 16777216 % 256) ++ "." ++ toString (ip / 65536 % 256) ++ "."
    ++ toString (ip / 256 % 256) ++ "." ++ toString (ip % 256)

/-- Lowercase hex without leading zeros. -/
def toHexStr (n : Nat) : String :=
  String.mk (Nat.toDigits 16 n)

/-- The eight 16-bit groups of a 128-bit address, most significant first. -/
def v6Groups (val : Nat) : List Nat :=
  (List.range 8).map fun j => val / 2 ^ (16 * (7 - j)) % 65536

/-- The leftmost longest run of zero groups, when of length at least two
(RFC 5952, as in Go's `IP.String`): start index and length. -/
def bestZeroRun (gs : List Nat) : Option (Nat × Nat) :=
  let cands := (List.range gs.length).map fun i =>
    (i, ((gs.drop i).takeWhile fun g => g == 0).length)
  let best := cands.foldl (fun acc c => if acc.2 < c.2 then c else acc) (0, 0)
  if best.2 ≤ 1 then none else some best

/-- RFC 5952 rendering of a 128-bit address: hex groups joined by `:`, with
`::` replacing the leftmost longest zero run of length at least two. -/
def v6String (val : Nat) : String :=
  let gs := v6Groups val
  match bestZeroRun gs with
  | none => String.intercalate ":" (gs.map toHexStr)
  | some (e0, len) =>
    String.intercalate ":" ((gs.take e0).map toHexStr) ++ "::" ++
      String.intercalate ":" ((gs.drop (e0 + len)).map toHexStr)

/-- Go's `IP.String`: dotted quad for an IPv4 address and for an
IPv4-mapped IPv6 address (`::ffff:a.b.c.d`, i.e. `To4` succeeds), RFC 5952
hex form otherwise. -/
def IPAddr.str : IPAddr → String
  | .v4 val => ipToString val
  | .v6 val =>
    if val / 4294967296 = 65535 then ipToString (val % 4294967296)
    else v6String val

/-- `net.IPNet`: the masked network address and the prefix length. -/
structure IPNet where
  network : IPAddr
  prefixLen : Nat
  deriving DecidableEq, Repr

/-- Whether the address `x` lies in the network block (Go's
`IPNet.Contains` on same-family arguments). -/
def ipNetContains (n : IPNet) (x : IPAddr) : Bool :=
  match n.network, x with
  | .v4 net, .v4 a => maskBits 32 n.prefixLen a == net
  | .v6 net, .v6 a => maskBits 128 n.prefixLen a == net
  | _, _ => false

/-- Go's `IPNet.String`: `network/prefixLen`. -/
def IPNet.str (n : IPNet) : String :=
  n.network.str ++ "/" ++ toString n.prefixLen

/-- Model of `net.ParseCIDR`: split at the slash; parse the address part
with `parseIPv4`, falling back to `parseIPv6`; the prefix length is bounded
by 32 or 128 accordingly, and the address is masked down to its network.
An input with zero or several slashes fails (a second slash lands in the
mask field and fails its digit parse). -/
def parseCIDR (s : String) : Option IPNet :=
  match goSplit '/' s with
  | [addr, mask] =>
    match parseIPv4 addr with
    | some ip => do
      let p ← parseMaskBits 32 mask
      pure ⟨.v4 (maskBits 32 p ip), p⟩
    | none => do
      let ip ← parseIPv6 addr.data
      let p ← parseMaskBits 128 mask
      pure ⟨.v6 (maskBits 128 p ip), p⟩
  | _ => none

/-! ## The allowlist parser (netfilter.go lines 19–85) -/

/-- `IPRange` (netfilter.go:20): a from/to pair of addresses. -/
structure IPRange where
  fromIP : IPAddr
  toIP : IPAddr
  deriving DecidableEq, Repr

/-- `IPRange.String` (netfilter.go:40): `from-to`. -/
def IPRange.str (r : IPRange) : String :=
  r.fromIP.str ++ "-" ++ r.toIP.str

/-- `ParseIPRange` (netfilter.go:26): split on `-`; exactly two parts, each
trimmed and parsed with `net.ParseIP`, else `none`. -/
def ParseIPRange (ipRange : String) : Option IPRange :=
  match goSplit '-' ipRange with
  | [a, b] => do
    let f ← parseIP (trimSpace a)
    let t ← parseIP (trimSpace b)
    pure ⟨f, t⟩
  | _ => none

/-- `netFilterConfig` (netfilter.go:44). -/
structure netFilterConfig where
  allowedNets : List IPNet
  allowedRanges : List IPRange
  deriving DecidableEq, Repr

/-- `netFilter` (netfilter.go:49); a `nil` config pointer is `none`. -/
structure netFilter where
  ifaceName : String
  config : Option netFilterConfig
  deriving DecidableEq, Repr

/-- `ParseIPOrNet` (netfilter.go:55): if the token has no `/`, append `/32`,
then parse as CIDR. -/
def ParseIPOrNet (ipStr : String) : Option IPNet :=
  let s := if goContains ipStr '/' then ipStr else ipStr ++ "/32"
  parseCIDR s

/-- The parse error of `NetFilterConfigParse` (netfilter.go:76), carrying the
offending (trimmed) token. -/
structure ParseError where
  token : String
  deriving DecidableEq, Repr

/-- The token loop of `NetFilterConfigParse` (netfilter.go:69–81): trim each
element, try `ParseIPOrNet` then `ParseIPRange`, appending to the
accumulated config; fail on the first token neither accepts. -/
def parseTokens (config : netFilterConfig) :
    List String → Except ParseError netFilterConfig
  | [] => .ok config
  | tok :: rest =>
    let filterElement := trimSpace tok
    match ParseIPOrNet filterElement with
    | some ipNet =>
        parseTokens { config with allowedNets := config.allowedNets ++ [ipNet] } rest
    | none =>
      match ParseIPRange filterElement with
      | some ipRange =>
          parseTokens { config with allowedRanges := config.allowedRanges ++ [ipRange] } rest
      | none => .error ⟨filterElement⟩

/-- `NetFilterConfigParse` (netfilter.go:66): empty input yields no config
(`none`, filtering disabled) and no error; otherwise split on commas and run
the token loop. -/
def NetFilterConfigParse (ingressAllowedString : String) :
    Except ParseError (Option netFilterConfig) :=
  if ingressAllowedString ≠ "" then
    (parseTokens ⟨[], []⟩ (goSplit ',' ingressAllowedString)).map some
  else
    .ok none

/-! ## Chain names (netfilter.go lines 13–17) -/

def containersChainName : String := "CONTAINERS"

def containerRejectChainName : String := "CONTAINER-REJECT"

def vethChainPrefix : String := "CONTAINER-"

/-! ## The backend

`chainExists` wraps `iptables.ExistChain` and `applyIPTablesRule` wraps
`iptables.Raw`; the `iptables` package lives elsewhere in the repository.
Modelled from the spec: §6's Backend interface — `execute(operation) ->
(output, error?)` plus a "chain exists" query — becomes an abstract
`Backend` over a state type. -/

/-- The error values of the net filter.  The Go code returns `error` built
with `fmt.Errorf`; the two shapes are the missing-base-chain error
(netfilter.go:114, the spec's PreconditionError) and the failed-command
error carrying the command's arguments and the backend output
(netfilter.go:178, the spec's BackendError). -/
inductive NetFilterError where
  | precondition (chain : String)
  | backend (args : List String) (output : String)
  deriving DecidableEq, Repr

/-- Modelled from the spec: the external packet-filtering backend (§6) —
`raw` executes one rule-mutation command, returning the new backend state
and, on failure, diagnostic output; `existChain` is the chain-existence
query used by the precondition check. -/
structure Backend (σ : Type) where
  raw : List String → σ → σ × Option String
  existChain : String → σ → Bool

/-- `chainExists` (netfilter.go:98). -/
def chainExists (B : Backend σ) (chainName : String) (s : σ) : Bool :=
  B.existChain chainName s

/-- `applyIPTablesRule` (netfilter.go:175): run one command; on failure wrap
the arguments and the backend output into an error. -/
def applyIPTablesRule (B : Backend σ) (args : List String) (s : σ) :
    σ × Option NetFilterError :=
  let (s', res) := B.raw args s
  match res with
  | some output => (s', some (.backend args output))
  | none => (s', none)

/-- `iptablesRules` (netfilter.go:158): an ordered rule program. -/
structure iptablesRules where
  rules : List (List String)
  deriving DecidableEq, Repr

/-- `addRule` (netfilter.go:162): append one command to the program. -/
def iptablesRules.addRule (ipRules : iptablesRules) (args : List String) :
    iptablesRules :=
  ⟨ipRules.rules ++ [args]⟩

/-- The loop of `iptablesRules.apply` (netfilter.go:166): execute commands in
order, returning the first error. -/
def applyRuleList (B : Backend σ) : List (List String) → σ → σ × Option NetFilterError
  | [], s => (s, none)
  | rule :: rest, s =>
    match applyIPTablesRule B rule s with
    | (s', none) => applyRuleList B rest s'
    | (s', some e) => (s', some e)

/-- `iptablesRules.apply` (netfilter.go:166). -/
def iptablesRules.apply (ipRules : iptablesRules) (B : Backend σ) (s : σ) :
    σ × Option NetFilterError :=
  applyRuleList B ipRules.rules s

/-! ## The filter lifecycle (netfilter.go lines 87–156) -/

/-- A value stored in the endpoint options map: either a `*netFilterConfig`
(possibly a nil pointer, `none`) or a value of some other dynamic type. -/
inductive OptValue where
  | netFilterCfg (config : Option netFilterConfig)
  | otherType (description : String)
  deriving DecidableEq, Repr

/-- Modelled from the spec: the well-known options key (`netlabel.IngressAllowed`,
defined in the repository's `netlabel` package) under which the pre-parsed
allowlist is stored (§6, configuration surface). -/
def ingressAllowedLabel : String := "com.medallia.network.endpoint.ingressallowed"

/-- `newNetFilter` (netfilter.go:87).  The Go code runs the unchecked type
assertion `epOptions[netlabel.IngressAllowed].(*netFilterConfig)`: a missing
key yields a nil interface value and the assertion panics, as it does for
any value whose dynamic type is not `*netFilterConfig`; `none` models the
panic.  A typed nil pointer passes the assertion and gives a filter with no
config (filtering disabled). -/
def newNetFilter (ifaceName : String) (epOptions : List (String × OptValue)) :
    Option netFilter :=
  match epOptions.lookup ingressAllowedLabel with
  | some (.netFilterCfg ingressFiltering) => some ⟨ifaceName, ingressFiltering⟩
  | _ => none

/-- The rule program built by `applyFiltering` (netfilter.go:118–132): create
the veth chain, append one accept per allowed net then one per allowed range
(the Go `for` loops become folds), append the jump to `CONTAINER-REJECT`,
and insert the jump from `CONTAINERS` at position 1. -/
def applyFilteringRules (config : netFilterConfig) (ifaceName : String) :
    iptablesRules :=
  let vethChainName := vethChainPrefix ++ ifaceName
  let rules : iptablesRules := ⟨[]⟩
  let rules := rules.addRule ["-N", vethChainName]
  let rules := config.allowedNets.foldl
    (fun rules ipNet => rules.addRule ["-A", vethChainName, "-s", ipNet.str, "-j", "ACCEPT"])
    rules
  let rules := config.allowedRanges.foldl
    (fun rules ipRange =>
      rules.addRule ["-A", vethChainName, "-m", "iprange", "--src-range", ipRange.str, "-j", "ACCEPT"])
    rules
  let rules := rules.addRule ["-A", vethChainName, "-j", "CONTAINER-REJECT"]
  rules.addRule ["-I", containersChainName, "1", "-o", ifaceName, "-j", vethChainName]

/-- `applyFiltering` (netfilter.go:102): no-op without a config; check the two
base chains exist (failing with the precondition error for the first missing
one, issuing no command); then build and apply the rule program. -/
def applyFiltering (B : Backend σ) (n : netFilter) (s : σ) :
    σ × Option NetFilterError :=
  match n.config with
  | none => (s, none)
  | some config =>
    if !chainExists B containersChainName s then
      (s, some (.precondition containersChainName))
    else if !chainExists B containerRejectChainName s then
      (s, some (.precondition containerRejectChainName))
    else
      (applyFilteringRules config n.ifaceName).apply B s

/-- The rule program built by `removeFiltering` (netfilter.go:151–154):
delete the jump rule from `CONTAINERS`, flush the veth chain, delete the
veth chain. -/
def removeFilteringRules (ifaceName : String) : iptablesRules :=
  let vethChainName := vethChainPrefix ++ ifaceName
  let rules : iptablesRules := ⟨[]⟩
  let rules := rules.addRule ["-D", containersChainName, "-o", ifaceName, "-j", vethChainName]
  let rules := rules.addRule ["-F", vethChainName]
  rules.addRule ["-X", vethChainName]

/-- `removeFiltering` (netfilter.go:142): no-op without a config, else apply
the removal program. -/
def removeFiltering (B : Backend σ) (n : netFilter) (s : σ) :
    σ × Option NetFilterError :=
  match n.config with
  | none => (s, none)
  | some _ => (removeFilteringRules n.ifaceName).apply B s

/-! ## A concrete backend: the iptables filter table

Modelled from the spec: §6 requires the backend to support create/flush/
delete of a named chain, insert at a position, append, delete by exact
argument match, and a chain-existence query.  The state is the filter
table's named chains, each an ordered rule list. -/

/-- The filter table: named chains with their ordered rules. -/
structure FilterTable where
  chains : List (String × List (List String))
  deriving DecidableEq, Repr

/-- Chain-existence query (`iptables.ExistChain` on the filter table). -/
def existChainTable (chainName : String) (t : FilterTable) : Bool :=
  (t.chains.lookup chainName).isSome

/-- Rewrite one table entry when its name matches. -/
def updEntry (chainName : String) (f : List (List String) → List (List String))
    (e : String × List (List String)) : String × List (List String) :=
  if e.1 = chainName then (e.1, f e.2) else e

/-- Rewrite the rules of the named chain. -/
def updateChain (chainName : String)
    (f : List (List String) → List (List String)) (t : FilterTable) : FilterTable :=
  ⟨t.chains.map (updEntry chainName f)⟩

/-- Modelled from the spec: execution of one rule-mutation command against
the filter table (`iptables.Raw` of the repository's `iptables` package).
`-N` creates a chain (fails if present), `-A` appends, `-I c 1` inserts at
position 1, `-D` deletes the first rule matching the arguments exactly,
`-F` flushes, `-X` deletes an empty chain; commands on missing chains
fail with diagnostic output. -/
def noChainDiag : String := "iptables: No chain/target/match by that name."

def badArgsDiag : String := "iptables: bad argument"

def rawTable (args : List String) (t : FilterTable) : FilterTable × Option String :=
  match args with
  | [] => (t, some "iptables: no command specified")
  | flag :: rest =>
    if flag = "-N" then
      match rest with
      | [chainName] =>
        if existChainTable chainName t then (t, some "iptables: Chain already exists.")
        else (⟨t.chains ++ [(chainName, [])]⟩, none)
      | _ => (t, some badArgsDiag)
    else if flag = "-F" then
      match rest with
      | [chainName] =>
        if existChainTable chainName t then (updateChain chainName (fun _ => []) t, none)
        else (t, some noChainDiag)
      | _ => (t, some badArgsDiag)
    else if flag = "-X" then
      match rest with
      | [chainName] =>
        match t.chains.lookup chainName with
        | some [] => (⟨t.chains.filter fun e => e.1 != chainName⟩, none)
        | some (_ :: _) => (t, some "iptables: Directory not empty.")
        | none => (t, some noChainDiag)
      | _ => (t, some badArgsDiag)
    else if flag = "-A" then
      match rest with
      | chainName :: rule =>
        if existChainTable chainName t then (updateChain chainName (· ++ [rule]) t, none)
        else (t, some noChainDiag)
      | [] => (t, some badArgsDiag)
    else if flag = "-I" then
      match rest with
      | chainName :: pos :: rule =>
        if pos = "1" then
          if existChainTable chainName t then (updateChain chainName (rule :: ·) t, none)
          else (t, some noChainDiag)
        else (t, some badArgsDiag)
      | _ => (t, some badArgsDiag)
    else if flag = "-D" then
      match rest with
      | chainName :: rule =>
        match t.chains.lookup chainName with
        | some rules =>
          if rule ∈ rules then (updateChain chainName (·.erase rule) t, none)
          else (t, some "iptables: Bad rule (does a matching rule exist in that chain?).")
        | none => (t, some noChainDiag)
      | [] => (t, some badArgsDiag)
    else (t, some "iptables: unrecognized option")

/-- The concrete iptables backend over the filter table. -/
def iptablesBackend : Backend FilterTable :=
  ⟨rawTable, existChainTable⟩

/-! ## Sequential execution without early exit (for stating fail-fast) -/

/-- The state reached by executing every command in order, unconditionally. -/
def execList (B : Backend σ) : List (List String) → σ → σ
  | [], s => s
  | rule :: rest, s => execList B rest (B.raw rule s).1

/-- Whether every command in the list succeeds when executed in order. -/
def execOk (B : Backend σ) : List (List String) → σ → Bool
  | [], _ => true
  | rule :: rest, s => (B.raw rule s).2.isNone && execOk B rest (B.raw rule s).1

/-- A (trimmed) token that neither `ParseIPOrNet` nor `ParseIPRange`
accepts: such a token makes `NetFilterConfigParse` fail. -/
def badToken (tok : String) : Bool :=
  (ParseIPOrNet tok).isNone && (ParseIPRange tok).isNone

/-- The rules appended to the dedicated chain by `applyFiltering`, without
their leading `-A chainName`: accepts per net, accepts per range, final
jump to `CONTAINER-REJECT`. -/
def acceptTails (config : netFilterConfig) : List (List String) :=
  (config.allowedNets.map fun ipNet => ["-s", ipNet.str, "-j", "ACCEPT"]) ++
  (config.allowedRanges.map fun ipRange =>
    ["-m", "iprange", "--src-range", ipRange.str, "-j", "ACCEPT"]) ++
  [["-j", "CONTAINER-REJECT"]]

/-! # Theorems -/

theorem foldl_addRule {α : Type} (f : α → List String) (l : List α) (r : iptablesRules) :
    (l.foldl (fun acc x => iptablesRules.mk (acc.rules ++ [f x])) r).rules =
      r.rules ++ l.map f := by
  induction l generalizing r with
  | nil => simp
  | cons x xs ih =>
    rw [List.foldl_cons, ih]
    simp

/-- Closed form of the compiled apply program. -/
theorem applyFilteringRules_eq (config : netFilterConfig) (ifaceName : String) :
    (applyFilteringRules config ifaceName).rules =
      [["-N", vethChainPrefix ++ ifaceName]] ++
      (config.allowedNets.map fun ipNet =>
        ["-A", vethChainPrefix ++ ifaceName, "-s", ipNet.str, "-j", "ACCEPT"]) ++
      (config.allowedRanges.map fun ipRange =>
        ["-A", vethChainPrefix ++ ifaceName, "-m", "iprange", "--src-range",
          ipRange.str, "-j", "ACCEPT"]) ++
      [["-A", vethChainPrefix ++ ifaceName, "-j", "CONTAINER-REJECT"],
       ["-I", containersChainName, "1", "-o", ifaceName, "-j",
         vethChainPrefix ++ ifaceName]] := by
  simp [applyFilteringRules, iptablesRules.addRule, foldl_addRule]

/-- C1: for every interface identifier and allowlist, `applyFilteringRules`
(the rule program `applyFiltering` compiles before issuing any command)
is exactly: create the dedicated chain; one append-accept per network block
in allowlist order matching on `-s` source; one append-accept per address
range in allowlist order matching via the `iprange` source-range match; one
unconditional append of the jump to `CONTAINER-REJECT`; and the rule
inserted at position 1 of the shared `CONTAINERS` chain jumping to the
dedicated chain.  In particular for allowlist `[10.0.0.1/32, 10.0.0.2/32]`
the sequence is create-chain, accept(10.0.0.1/32), accept(10.0.0.2/32),
reject, insert-jump-at-1. -/
theorem applyFilteringRules_program :
    (∀ (config : netFilterConfig) (ifaceName : String),
      (applyFilteringRules config ifaceName).rules =
        [["-N", vethChainPrefix ++ ifaceName]] ++
        (config.allowedNets.map fun ipNet =>
          ["-A", vethChainPrefix ++ ifaceName, "-s", ipNet.str, "-j", "ACCEPT"]) ++
        (config.allowedRanges.map fun ipRange =>
          ["-A", vethChainPrefix ++ ifaceName, "-m", "iprange", "--src-range",
            ipRange.str, "-j", "ACCEPT"]) ++
        [["-A", vethChainPrefix ++ ifaceName, "-j", "CONTAINER-REJECT"],
         ["-I", containersChainName, "1", "-o", ifaceName, "-j",
           vethChainPrefix ++ ifaceName]]) ∧
    (applyFilteringRules ⟨[⟨.v4 167772161, 32⟩, ⟨.v4 167772162, 32⟩], []⟩ "eth0").rules =
      [["-N", "CONTAINER-eth0"],
       ["-A", "CONTAINER-eth0", "-s", "10.0.0.1/32", "-j", "ACCEPT"],
       ["-A", "CONTAINER-eth0", "-s", "10.0.0.2/32", "-j", "ACCEPT"],
       ["-A", "CONTAINER-eth0", "-j", "CONTAINER-REJECT"],
       ["-I", "CONTAINERS", "1", "-o", "eth0", "-j", "CONTAINER-eth0"]] :=
  ⟨applyFilteringRules_eq, by decide⟩

theorem splitChar_ne_nil (sep : Char) (l : List Char) : splitChar sep l ≠ [] := by
  induction l with
  | nil => simp [splitChar]
  | cons c cs ih =>
    simp only [splitChar]
    rcases h : splitChar sep cs with _ | ⟨t, ts⟩
    · exact absurd h ih
    · simp only [h]
      split <;> simp

theorem goSplit_ne_nil (sep : Char) (s : String) : goSplit sep s ≠ [] := by
  intro h
  exact splitChar_ne_nil sep s.data (by simpa [goSplit] using h)

theorem splitChar_sepFree (sep : Char) (l : List Char) (h : sep ∉ l) :
    splitChar sep l = [l] := by
  induction l with
  | nil => rfl
  | cons c cs ih =>
    have hc : c ≠ sep := fun he => h (he ▸ List.mem_cons_self c cs)
    have hcs : sep ∉ cs := fun hm => h (List.mem_cons_of_mem c hm)
    simp [splitChar, ih hcs, hc]

theorem splitChar_append_sep (sep : Char) (l r : List Char) (hl : sep ∉ l)
    (hr : sep ∉ r) : splitChar sep (l ++ sep :: r) = [l, r] := by
  induction l with
  | nil => simp [splitChar, splitChar_sepFree sep r hr]
  | cons c cs ih =>
    have hc : c ≠ sep := fun he => hl (he ▸ List.mem_cons_self c cs)
    have hcs : sep ∉ cs := fun hm => hl (List.mem_cons_of_mem c hm)
    simp [splitChar, ih hcs, hc]

/-- The token loop fails with the first token (after trimming) that neither
parser accepts. -/
theorem parseTokens_error (toks : List String) (tok : String) :
    ∀ config : netFilterConfig,
      (toks.map trimSpace).find? badToken = some tok →
      parseTokens config toks = .error ⟨tok⟩ := by
  induction toks with
  | nil => intro config h; simp at h
  | cons t rest ih =>
    intro config h
    by_cases hb : badToken (trimSpace t) = true
    · rw [List.map_cons, List.find?_cons_of_pos _ hb] at h
      obtain rfl : trimSpace t = tok := by simpa using h
      obtain ⟨h1, h2⟩ := by simpa [badToken, Option.isNone_iff_eq_none] using hb
      simp [parseTokens, h1, h2]
    · rw [List.map_cons, List.find?_cons_of_neg _ (by simpa using hb)] at h
      simp only [badToken, Bool.and_eq_true, Option.isNone_iff_eq_none] at hb
      rcases hn : ParseIPOrNet (trimSpace t) with _ | n
      · rcases hr : ParseIPRange (trimSpace t) with _ | rg
        · exact absurd ⟨hn, hr⟩ hb
        · simp only [parseTokens, hn, hr]
          exact ih _ h
      · simp only [parseTokens, hn]
        exact ih _ h

/-- One parsed token appends exactly one element to the accumulated config. -/
theorem parseTokens_length (toks : List String) :
    ∀ config config' : netFilterConfig, parseTokens config toks = .ok config' →
      config'.allowedNets.length + config'.allowedRanges.length =
        config.allowedNets.length + config.allowedRanges.length + toks.length := by
  induction toks with
  | nil =>
    intro c c' h
    obtain rfl : c = c' := by simpa [parseTokens] using h
    simp
  | cons t rest ih =>
    intro c c' h
    simp only [parseTokens] at h
    rcases hn : ParseIPOrNet (trimSpace t) with _ | n
    · rw [hn] at h
      rcases hr : ParseIPRange (trimSpace t) with _ | rg
      · rw [hr] at h; exact absurd h (by simp)
      · rw [hr] at h
        have := ih _ _ h
        simp only [List.length_append, List.length_cons, List.length_nil] at this ⊢
        omega
    · rw [hn] at h
      have := ih _ _ h
      simp only [List.length_append, List.length_cons, List.length_nil] at this ⊢
      omega

/-- C4: if any comma-separated token of a non-empty spec (after trimming)
parses neither as a CIDR/bare address nor as an address range, the whole
parse fails with a `ParseError` naming the first such token, and no config
(not even a partial one) is produced: the result is `.error`, which carries
no allowlist. -/
theorem parse_allOrNothing (s tok : String) (hs : s ≠ "")
    (h : ((goSplit ',' s).map trimSpace).find? badToken = some tok) :
    NetFilterConfigParse s = .error ⟨tok⟩ := by
  unfold NetFilterConfigParse
  rw [if_pos hs, parseTokens_error _ _ _ h]
  rfl

/-- Witness for C4: the middle token is malformed, parsing fails naming it. -/
theorem parse_allOrNothing_witness :
    NetFilterConfigParse "10.0.0.1,zzz,1.2.3.4" = .error ⟨"zzz"⟩ :=
  parse_allOrNothing _ "zzz" (by decide) (by decide)

/-- C6 (amended): a token without a slash that the CIDR/bare-address
attempt accepts always gets the appended prefix length 32.  When the token
is an IPv4 dotted quad, 32 is a full-length prefix: the block is the
token's own address and contains exactly that one address — in particular
`parse("10.0.0.1")` yields the single network block 10.0.0.1/32.  When the
token is IPv6, 32 is not full-length: the block is the token's address
masked to its top 32 bits, not in general a host route (see
`bareAddress_hostRoute_cex`, which refutes the claim as frozen at `::1`). -/
theorem bareAddress_hostRoute :
    (∀ (s : String) (ipNet : IPNet), goContains s '/' = false →
      ParseIPOrNet s = some ipNet →
      ipNet.prefixLen = 32 ∧
      ((∃ ip, parseIPv4 s = some ip ∧ ipNet = ⟨.v4 ip, 32⟩ ∧
          ∀ x : Nat, ipNetContains ipNet (.v4 x) = true ↔ x = ip) ∨
        (∃ ip, parseIPv4 s = none ∧ parseIPv6 s.data = some ip ∧
          ipNet = ⟨.v6 (maskBits 128 32 ip), 32⟩))) ∧
    NetFilterConfigParse "10.0.0.1" = .ok (some ⟨[⟨.v4 167772161, 32⟩], []⟩) := by
  constructor
  · intro s ipNet hslash hparse
    have hsep : '/' ∉ s.data := by simpa [goContains] using hslash
    simp only [ParseIPOrNet, hslash, Bool.false_eq_true, if_false] at hparse
    have hdata : (s ++ "/32").data = s.data ++ '/' :: ['3', '2'] := by
      simp [String.data_append]
    have hsplit : goSplit '/' (s ++ "/32") = [s, "32"] := by
      unfold goSplit
      rw [hdata, splitChar_append_sep '/' s.data ['3', '2'] hsep (by decide)]
      rfl
    have hred : parseCIDR (s ++ "/32") =
        match parseIPv4 s with
        | some ip => some ⟨.v4 (maskBits 32 32 ip), 32⟩
        | none => (parseIPv6 s.data).bind fun ip =>
            some ⟨.v6 (maskBits 128 32 ip), 32⟩ := by
      unfold parseCIDR
      rw [hsplit]
      rfl
    rw [hred] at hparse
    rcases hip : parseIPv4 s with _ | ip
    · rw [hip] at hparse
      rcases hip6 : parseIPv6 s.data with _ | ip6
      · rw [hip6] at hparse
        exact absurd hparse (by simp)
      · rw [hip6] at hparse
        obtain rfl : IPNet.mk (.v6 (maskBits 128 32 ip6)) 32 = ipNet := by
          simpa using hparse
        exact ⟨rfl, Or.inr ⟨ip6, rfl, rfl, rfl⟩⟩
    · rw [hip] at hparse
      obtain rfl : IPNet.mk (.v4 (maskBits 32 32 ip)) 32 = ipNet := by
        simpa using hparse
      have hmask : ∀ x : Nat, maskBits 32 32 x = x := by
        intro x; simp [maskBits]
      refine ⟨rfl, Or.inl ⟨ip, rfl, by simp [hmask], fun x => ?_⟩⟩
      simp [ipNetContains, hmask]
  · rfl

/-- Counterexample to C6 as frozen, at the explicit token `::1`: it
contains no slash and the CIDR/bare-address attempt accepts it (Go's
`net.ParseCIDR("::1/32")` succeeds on the IPv6 fallback), but the stored
network block is `::/32` — its prefix length 32 is not full-length for
IPv6, its network `::` is not the token's address `::1`, and it is not a
host route containing exactly that one address: it also contains `::2`.
`NetFilterConfigParse` accepts the token and stores that block. -/
theorem bareAddress_hostRoute_cex :
    goContains "::1" '/' = false ∧
    parseIP "::1" = some (.v6 1) ∧
    ParseIPOrNet "::1" = some ⟨.v6 0, 32⟩ ∧
    (⟨.v6 0, 32⟩ : IPNet).prefixLen ≠ 128 ∧
    IPAddr.v6 0 ≠ .v6 1 ∧
    ipNetContains ⟨.v6 0, 32⟩ (.v6 2) = true ∧
    IPAddr.v6 2 ≠ .v6 1 ∧
    NetFilterConfigParse "::1" = .ok (some ⟨[⟨.v6 0, 32⟩], []⟩) := by
  refine ⟨rfl, rfl, rfl, by decide, by decide, rfl, by decide, rfl⟩

/-- Witness for C6 (amended) at the token `10.0.0.1`. -/
theorem bareAddress_hostRoute_witness :
    (⟨.v4 167772161, 32⟩ : IPNet).prefixLen = 32 ∧
    ((∃ ip, parseIPv4 "10.0.0.1" = some ip ∧
        (⟨.v4 167772161, 32⟩ : IPNet) = ⟨.v4 ip, 32⟩ ∧
        ∀ x : Nat, ipNetContains ⟨.v4 167772161, 32⟩ (.v4 x) = true ↔ x = ip) ∨
      (∃ ip, parseIPv4 "10.0.0.1" = none ∧
        parseIPv6 ("10.0.0.1" : String).data = some ip ∧
        (⟨.v4 167772161, 32⟩ : IPNet) = ⟨.v6 (maskBits 128 32 ip), 32⟩)) :=
  bareAddress_hostRoute.1 "10.0.0.1" ⟨.v4 167772161, 32⟩ (by decide) (by decide)

/-- C10: a successful parse of a non-empty spec always carries at least one
network block or at least one address range — every token contributes one
element, so the empty-but-present allowlist is unreachable through the
parser. -/
theorem parse_nonempty_allowlist (s : String) (config : netFilterConfig)
    (hs : s ≠ "") (h : NetFilterConfigParse s = .ok (some config)) :
    config.allowedNets ≠ [] ∨ config.allowedRanges ≠ [] := by
  unfold NetFilterConfigParse at h
  rw [if_pos hs] at h
  rcases hp : parseTokens ⟨[], []⟩ (goSplit ',' s) with e | c
  · rw [hp] at h; exact absurd h (by simp [Except.map])
  · rw [hp] at h
    obtain rfl : c = config := by simpa [Except.map] using h
    have hlen := parseTokens_length _ _ _ hp
    have hne := goSplit_ne_nil ',' s
    by_contra hcon
    push_neg at hcon
    obtain ⟨h1, h2⟩ := hcon
    rw [h1, h2] at hlen
    simp only [List.length_nil] at hlen
    exact hne (List.length_eq_zero.mp (by omega))

/-- Witness for C10 at a one-token spec. -/
theorem parse_nonempty_allowlist_witness :
    (⟨[⟨.v4 167772161, 32⟩], []⟩ : netFilterConfig).allowedNets ≠ [] ∨
      (⟨[⟨.v4 167772161, 32⟩], []⟩ : netFilterConfig).allowedRanges ≠ [] :=
  parse_nonempty_allowlist "10.0.0.1" ⟨[⟨.v4 167772161, 32⟩], []⟩ (by decide) rfl

/-- C5: parsing the empty allowlist string yields no config at all
(filtering disabled) and no error — a value distinct from an
empty-but-present config. -/
theorem parse_empty_disabled :
    NetFilterConfigParse "" = .ok none ∧
      (Except.ok none : Except ParseError (Option netFilterConfig)) ≠
        .ok (some ⟨[], []⟩) := by
  exact ⟨rfl, by simp⟩

/-- C8: `removeFiltering` is a no-op success when the filter carries no
config; otherwise it runs, through the same sequential fail-fast executor
`iptablesRules.apply` as `applyFiltering`, exactly the three-command
program: delete the `CONTAINERS` jump rule, flush the dedicated chain,
delete the dedicated chain, in that order. -/
theorem removeFiltering_program :
    (∀ {σ : Type} (B : Backend σ) (n : netFilter) (s : σ),
        n.config = none → removeFiltering B n s = (s, none)) ∧
    (∀ {σ : Type} (B : Backend σ) (n : netFilter) (config : netFilterConfig) (s : σ),
        n.config = some config →
        removeFiltering B n s = iptablesRules.apply
          ⟨[["-D", containersChainName, "-o", n.ifaceName, "-j",
              vethChainPrefix ++ n.ifaceName],
            ["-F", vethChainPrefix ++ n.ifaceName],
            ["-X", vethChainPrefix ++ n.ifaceName]]⟩ B s) := by
  constructor
  · intro σ B n s h
    simp [removeFiltering, h]
  · intro σ B n config s h
    simp [removeFiltering, h, removeFilteringRules, iptablesRules.addRule]

/-- Witness for C8 at a concrete filter, backend and table. -/
theorem removeFiltering_program_witness :
    removeFiltering iptablesBackend ⟨"eth0", none⟩ (⟨[]⟩ : FilterTable) = (⟨[]⟩, none) ∧
    removeFiltering iptablesBackend ⟨"eth0", some ⟨[], []⟩⟩ (⟨[]⟩ : FilterTable) =
      iptablesRules.apply
        ⟨[["-D", containersChainName, "-o", "eth0", "-j", vethChainPrefix ++ "eth0"],
          ["-F", vethChainPrefix ++ "eth0"],
          ["-X", vethChainPrefix ++ "eth0"]]⟩ iptablesBackend ⟨[]⟩ :=
  ⟨removeFiltering_program.1 iptablesBackend ⟨"eth0", none⟩ _ rfl,
   removeFiltering_program.2 iptablesBackend ⟨"eth0", some ⟨[], []⟩⟩ ⟨[], []⟩ _ rfl⟩

/-- Sequential execution: a program whose prefix succeeds and whose next
command fails stops exactly there. -/
theorem applyRuleList_failFast {σ : Type} (B : Backend σ) (bad : List String)
    (post : List (List String)) (out : String) :
    ∀ (pre : List (List String)) (s : σ), execOk B pre s = true →
      (B.raw bad (execList B pre s)).2 = some out →
      applyRuleList B (pre ++ bad :: post) s =
        ((B.raw bad (execList B pre s)).1, some (.backend bad out)) := by
  intro pre
  induction pre with
  | nil =>
    intro s _ hbad
    rcases hraw : B.raw bad s with ⟨s1, res⟩
    obtain rfl : res = some out := by
      have h := hbad
      simp only [execList] at h
      rw [hraw] at h
      exact h
    simp [applyRuleList, applyIPTablesRule, execList, hraw]
  | cons r rest ih =>
    intro s hpre hbad
    simp only [execOk, Bool.and_eq_true] at hpre
    obtain ⟨h1, h2⟩ := hpre
    rcases hraw : B.raw r s with ⟨s1, res⟩
    rw [hraw] at h1 h2
    obtain rfl : res = none := by simpa [Option.isNone_iff_eq_none] using h1
    have hbad1 : (B.raw bad (execList B rest s1)).2 = some out := by
      have h := hbad
      simp only [execList] at h
      rw [hraw] at h
      exact h
    simp only [List.cons_append, applyRuleList, applyIPTablesRule, hraw]
    have hres := ih s1 h2 hbad1
    simp only [execList, hraw]
    exact hres

/-- C2: the executor runs the program strictly in order; at the first
failing command it stops, returning a BackendError wrapping that command's
arguments and the backend's diagnostic output; the commands after it are
abandoned (they do not influence the result), and the state already reached
is kept as is — the forward execution of the prefix — with nothing rolled
back.  This holds for every backend, in particular for one that journals
each executed command. -/
theorem apply_failFast {σ : Type} (B : Backend σ) (pre post : List (List String))
    (bad : List String) (out : String) (s : σ)
    (hpre : execOk B pre s = true)
    (hbad : (B.raw bad (execList B pre s)).2 = some out) :
    iptablesRules.apply ⟨pre ++ bad :: post⟩ B s =
      ((B.raw bad (execList B pre s)).1, some (.backend bad out)) :=
  applyRuleList_failFast B bad post out pre s hpre hbad

/-- Witness for C2: create a chain, then append to a missing chain (fails),
then a never-reached delete; the created chain is not rolled back. -/
theorem apply_failFast_witness :
    iptablesRules.apply ⟨[["-N", "c"], ["-A", "missing", "-j", "ACCEPT"], ["-X", "c"]]⟩
        iptablesBackend ⟨[]⟩ =
      (⟨[("c", [])]⟩, some (.backend ["-A", "missing", "-j", "ACCEPT"] noChainDiag)) := by
  have h := apply_failFast iptablesBackend [["-N", "c"]] [["-X", "c"]]
    ["-A", "missing", "-j", "ACCEPT"] noChainDiag ⟨[]⟩ (by decide) (by decide)
  exact h

/-- C3: with an allowlist present, if either required base chain is missing,
`applyFiltering` fails with the precondition error naming the first missing
chain and returns the backend state passed in, untouched: since this holds
for every backend — including one whose `raw` records every executed
command — no rule-mutation command is issued. -/
theorem applyFiltering_missingBaseChain {σ : Type} (B : Backend σ) (n : netFilter)
    (config : netFilterConfig) (s : σ) (hcfg : n.config = some config)
    (h : chainExists B containersChainName s = false ∨
         chainExists B containerRejectChainName s = false) :
    applyFiltering B n s = (s, some (.precondition
      (if chainExists B containersChainName s then containerRejectChainName
       else containersChainName))) := by
  rcases n with ⟨iface, cfg⟩
  obtain rfl : cfg = some config := hcfg
  rcases h with h | h
  · simp [applyFiltering, h]
  · by_cases h1 : chainExists B containersChainName s
    · simp [applyFiltering, h, h1]
    · simp [applyFiltering, h1]

/-- Witness for C3: an empty table has neither base chain; apply fails with
the precondition error and the table is unchanged. -/
theorem applyFiltering_missingBaseChain_witness :
    applyFiltering iptablesBackend ⟨"eth0", some ⟨[], []⟩⟩ (⟨[]⟩ : FilterTable) =
      (⟨[]⟩, some (.precondition containersChainName)) := by
  have h := applyFiltering_missingBaseChain iptablesBackend ⟨"eth0", some ⟨[], []⟩⟩
    ⟨[], []⟩ ⟨[]⟩ rfl (Or.inl (by decide))
  exact h

/-- C9: `newNetFilter` succeeds exactly when the ingress-allowed options
entry holds a `*netFilterConfig` (possibly a nil pointer, meaning filtering
disabled); a missing key or a value of any other dynamic type hits the
unchecked type assertion and panics (modelled by `none`). -/
theorem newNetFilter_typeAssertion :
    (∀ (ifaceName : String) (epOptions : List (String × OptValue))
        (config : Option netFilterConfig),
        epOptions.lookup ingressAllowedLabel = some (.netFilterCfg config) →
        newNetFilter ifaceName epOptions = some ⟨ifaceName, config⟩) ∧
    (∀ (ifaceName : String) (epOptions : List (String × OptValue)),
        epOptions.lookup ingressAllowedLabel = none →
        newNetFilter ifaceName epOptions = none) ∧
    (∀ (ifaceName : String) (epOptions : List (String × OptValue)) (d : String),
        epOptions.lookup ingressAllowedLabel = some (.otherType d) →
        newNetFilter ifaceName epOptions = none) := by
  refine ⟨?_, ?_, ?_⟩ <;> intro ifaceName epOptions <;> intros <;>
    simp [newNetFilter, *]

/-- Witness for C9: a present config (here a nil one), a missing key, and a
wrongly-typed value. -/
theorem newNetFilter_typeAssertion_witness :
    newNetFilter "eth0" [(ingressAllowedLabel, .netFilterCfg none)] =
      some ⟨"eth0", none⟩ ∧
    newNetFilter "eth0" [] = none ∧
    newNetFilter "eth0" [(ingressAllowedLabel, .otherType "a plain string")] = none :=
  ⟨newNetFilter_typeAssertion.1 _ _ _ (by simp),
   newNetFilter_typeAssertion.2.1 _ _ rfl,
   newNetFilter_typeAssertion.2.2 _ _ "a plain string" (by simp)⟩

/-! ### Equations for the concrete backend's commands -/

theorem rawTable_create (c : String) (t : FilterTable) :
    rawTable ["-N", c] t =
      if existChainTable c t then (t, some "iptables: Chain already exists.")
      else (⟨t.chains ++ [(c, [])]⟩, none) := rfl

theorem rawTable_append (c : String) (rule : List String) (t : FilterTable) :
    rawTable ("-A" :: c :: rule) t =
      if existChainTable c t then (updateChain c (· ++ [rule]) t, none)
      else (t, some noChainDiag) := rfl

theorem rawTable_insert1 (c : String) (rule : List String) (t : FilterTable) :
    rawTable ("-I" :: c :: "1" :: rule) t =
      if existChainTable c t then (updateChain c (rule :: ·) t, none)
      else (t, some noChainDiag) := rfl

theorem rawTable_flush (c : String) (t : FilterTable) :
    rawTable ["-F", c] t =
      if existChainTable c t then (updateChain c (fun _ => []) t, none)
      else (t, some noChainDiag) := rfl

theorem rawTable_delete (c : String) (rule : List String) (t : FilterTable) :
    rawTable ("-D" :: c :: rule) t =
      match t.chains.lookup c with
      | some rules =>
        if rule ∈ rules then (updateChain c (·.erase rule) t, none)
        else (t, some "iptables: Bad rule (does a matching rule exist in that chain?).")
      | none => (t, some noChainDiag) := rfl

theorem rawTable_deleteChain (c : String) (t : FilterTable) :
    rawTable ["-X", c] t =
      match t.chains.lookup c with
      | some [] => (⟨t.chains.filter fun e => e.1 != c⟩, none)
      | some (_ :: _) => (t, some "iptables: Directory not empty.")
      | none => (t, some noChainDiag) := rfl

/-! ### Association-list facts about the filter table -/

theorem lookup_cons {β : Type} (k a : String) (b : β) (rest : List (String × β)) :
    List.lookup k ((a, b) :: rest) =
      if k == a then some b else List.lookup k rest := by
  rcases hb : (k == a : Bool) with _ | _ <;> simp [List.lookup, hb]

theorem lookup_none_keys {β : Type} (k : String) :
    ∀ l : List (String × β), l.lookup k = none → ∀ e ∈ l, e.1 ≠ k := by
  intro l
  induction l with
  | nil => intro _ e he; simp at he
  | cons p rest ih =>
    intro h e he
    rcases p with ⟨a, b⟩
    rw [lookup_cons] at h
    by_cases hk : k = a
    · simp [hk] at h
    · rw [if_neg (by simpa using hk)] at h
      rcases List.mem_cons.mp he with rfl | hm
      · exact fun hak => hk hak.symm
      · exact ih h e hm

theorem lookup_append_some {β : Type} (k : String) (l1 l2 : List (String × β)) (v : β) :
    l1.lookup k = some v → (l1 ++ l2).lookup k = some v := by
  induction l1 with
  | nil => intro h; simp [List.lookup] at h
  | cons p rest ih =>
    intro h
    rcases p with ⟨a, b⟩
    rw [lookup_cons] at h
    rw [List.cons_append, lookup_cons]
    by_cases hk : (k == a : Bool) = true
    · rw [if_pos hk] at h
      rwa [if_pos hk]
    · rw [if_neg hk] at h
      rw [if_neg hk]
      exact ih h

theorem lookup_append_none {β : Type} (k : String) (l1 l2 : List (String × β)) :
    l1.lookup k = none → (l1 ++ l2).lookup k = l2.lookup k := by
  induction l1 with
  | nil => intro _; simp
  | cons p rest ih =>
    intro h
    rcases p with ⟨a, b⟩
    rw [lookup_cons] at h
    rw [List.cons_append, lookup_cons]
    by_cases hk : (k == a : Bool) = true
    · rw [if_pos hk] at h; exact absurd h (by simp)
    · rw [if_neg hk] at h
      rw [if_neg hk]
      exact ih h

theorem map_updEntry_notMem (k : String) (f : List (List String) → List (List String))
    (l : List (String × List (List String))) (h : ∀ e ∈ l, e.1 ≠ k) :
    l.map (updEntry k f) = l := by
  induction l with
  | nil => rfl
  | cons e rest ih =>
    have he : updEntry k f e = e := by
      simp [updEntry, h e (List.mem_cons_self e rest)]
    simp [he, ih fun x hx => h x (List.mem_cons_of_mem e hx)]

theorem lookup_map_updEntry_self (k : String) (f : List (List String) → List (List String)) :
    ∀ l : List (String × List (List String)),
      (l.map (updEntry k f)).lookup k = (l.lookup k).map f := by
  intro l
  induction l with
  | nil => rfl
  | cons e rest ih =>
    rcases e with ⟨a, b⟩
    by_cases ha : a = k
    · have h1 : updEntry k f (a, b) = (a, f b) := by simp [updEntry, ha]
      rw [List.map_cons, h1, lookup_cons, lookup_cons,
        if_pos (by simpa using ha.symm), if_pos (by simpa using ha.symm)]
      rfl
    · have h1 : updEntry k f (a, b) = (a, b) := by simp [updEntry, ha]
      have hk : ((k == a : Bool) = true) → False := by
        simpa using fun hk => ha hk.symm
      rw [List.map_cons, h1, lookup_cons, lookup_cons, if_neg hk, if_neg hk]
      exact ih

theorem lookup_map_updEntry_other (k k' : String)
    (f : List (List String) → List (List String)) (h : k' ≠ k) :
    ∀ l : List (String × List (List String)),
      (l.map (updEntry k f)).lookup k' = l.lookup k' := by
  intro l
  induction l with
  | nil => rfl
  | cons e rest ih =>
    rcases e with ⟨a, b⟩
    by_cases ha : a = k
    · have h1 : updEntry k f (a, b) = (a, f b) := by simp [updEntry, ha]
      have hk : ((k' == a : Bool) = true) → False := by
        simpa using fun hk => h (hk.trans ha)
      rw [List.map_cons, h1, lookup_cons, lookup_cons, if_neg hk, if_neg hk]
      exact ih
    · have h1 : updEntry k f (a, b) = (a, b) := by simp [updEntry, ha]
      rw [List.map_cons, h1, lookup_cons, lookup_cons]
      by_cases hk : (k' == a : Bool) = true
      · rw [if_pos hk, if_pos hk]
      · rw [if_neg hk, if_neg hk]
        exact ih

theorem existChain_updateChain (c k : String)
    (f : List (List String) → List (List String)) (t : FilterTable) :
    existChainTable c (updateChain k f t) = existChainTable c t := by
  by_cases h : c = k
  · subst h
    simp [existChainTable, updateChain, lookup_map_updEntry_self]
  · simp [existChainTable, updateChain, lookup_map_updEntry_other _ _ _ h]

theorem updateChain_comp (k : String)
    (f g : List (List String) → List (List String)) (t : FilterTable) :
    updateChain k g (updateChain k f t) = updateChain k (fun rules => g (f rules)) t := by
  simp only [updateChain, List.map_map]
  congr 1
  apply List.map_congr_left
  intro e _
  by_cases he : e.1 = k <;> simp [Function.comp, updEntry, he]

theorem updateChain_id (k : String) (t : FilterTable) :
    updateChain k (fun rules => rules) t = t := by
  rcases t with ⟨chains⟩
  simp only [updateChain]
  congr 1
  conv_rhs => rw [← List.map_id chains]
  apply List.map_congr_left
  intro e _
  rcases e with ⟨a, b⟩
  by_cases he : a = k <;> simp [updEntry, he]

theorem filter_keys_ne (k : String) (l : List (String × List (List String)))
    (h : ∀ e ∈ l, e.1 ≠ k) : (l.filter fun e => e.1 != k) = l :=
  List.filter_eq_self.mpr fun e he => by simpa using h e he

/-! ### Running the compiled programs on the concrete backend -/

theorem applyRuleList_append_ok {σ : Type} (B : Backend σ) (l2 : List (List String)) :
    ∀ (l1 : List (List String)) (s s' : σ), applyRuleList B l1 s = (s', none) →
      applyRuleList B (l1 ++ l2) s = applyRuleList B l2 s' := by
  intro l1
  induction l1 with
  | nil =>
    intro s s' h
    obtain rfl : s = s' := by simpa [applyRuleList] using h
    simp [applyRuleList]
  | cons r rest ih =>
    intro s s' h
    rcases hraw : B.raw r s with ⟨s1, res⟩
    rcases res with _ | out
    · have hstep : applyIPTablesRule B r s = (s1, none) := by
        unfold applyIPTablesRule
        rw [hraw]
      simp only [List.cons_append, applyRuleList, hstep] at h ⊢
      exact ih s1 s' h
    · have hstep : applyIPTablesRule B r s = (s1, some (.backend r out)) := by
        unfold applyIPTablesRule
        rw [hraw]
      simp only [applyRuleList, hstep] at h
      simp at h

/-- Appending a block of `-A chainName …` commands to an existing chain
succeeds and appends exactly their rule tails to that chain. -/
theorem applyRuleList_appendBody (veth : String) :
    ∀ (tails : List (List String)) (t : FilterTable),
      existChainTable veth t = true →
      applyRuleList iptablesBackend (tails.map fun rest => "-A" :: veth :: rest) t =
        (updateChain veth (· ++ tails) t, none) := by
  intro tails
  induction tails with
  | nil =>
    intro t h
    have hid : (fun l : List (List String) => l ++ ([] : List (List String))) =
        fun l => l := funext fun l => List.append_nil l
    simp [applyRuleList, hid, updateChain_id]
  | cons tl tls ih =>
    intro t h
    have hraw : iptablesBackend.raw ("-A" :: veth :: tl) t =
        (updateChain veth (· ++ [tl]) t, none) := by
      rw [show iptablesBackend.raw = rawTable from rfl, rawTable_append, if_pos h]
    have hstep : applyIPTablesRule iptablesBackend ("-A" :: veth :: tl) t =
        (updateChain veth (· ++ [tl]) t, none) := by
      unfold applyIPTablesRule
      rw [hraw]
    simp only [List.map_cons, applyRuleList, hstep]
    rw [ih _ (by rw [existChain_updateChain]; exact h), updateChain_comp]
    have harr : (fun l : List (List String) => (l ++ [tl]) ++ tls) =
        fun l : List (List String) => l ++ tl :: tls := by
      funext l
      simp
    rw [harr]

theorem applyFiltering_checksPass (ifaceName : String) (config : netFilterConfig)
    (t : FilterTable)
    (hC : existChainTable containersChainName t = true)
    (hR : existChainTable containerRejectChainName t = true) :
    applyFiltering iptablesBackend ⟨ifaceName, some config⟩ t =
      applyRuleList iptablesBackend (applyFilteringRules config ifaceName).rules t := by
  have h1 : chainExists iptablesBackend containersChainName t = true := hC
  have h2 : chainExists iptablesBackend containerRejectChainName t = true := hR
  simp [applyFiltering, h1, h2, iptablesRules.apply]

/-- The compiled apply program, split as: create-chain, then the appended
chain body, then the jump insertion. -/
theorem applyFilteringRules_split (config : netFilterConfig) (ifaceName : String) :
    (applyFilteringRules config ifaceName).rules =
      ["-N", vethChainPrefix ++ ifaceName] ::
        ((acceptTails config).map
            (fun rest => "-A" :: ( vethChainPrefix ++ ifaceName) :: rest) ++
          [["-I", containersChainName, "1", "-o", ifaceName, "-j",
            vethChainPrefix ++ ifaceName]]) := by
  rw [applyFilteringRules_eq]
  simp [acceptTails, List.map_append, List.map_map, Function.comp_def]

theorem updateChain_append_entry (k : String)
    (f : List (List String) → List (List String)) (t : FilterTable)
    (c : String) (rules : List (List String)) (hck : c ≠ k) :
    updateChain k f ⟨t.chains ++ [(c, rules)]⟩ =
      ⟨(updateChain k f t).chains ++ [(c, rules)]⟩ := by
  simp only [updateChain, List.map_append]
  congr 1
  simp [updEntry, hck]

theorem updateChain_append_self (k : String)
    (f : List (List String) → List (List String)) (t : FilterTable)
    (rules : List (List String)) (hk : t.chains.lookup k = none) :
    updateChain k f ⟨t.chains ++ [(k, rules)]⟩ = ⟨t.chains ++ [(k, f rules)]⟩ := by
  simp only [updateChain, List.map_append]
  rw [map_updEntry_notMem _ _ _ (lookup_none_keys _ _ hk)]
  simp [updEntry]

/-- When the dedicated chain already exists, `applyFiltering` fails on its
first command and leaves the table unchanged. -/
theorem applyFiltering_vethExists (ifaceName : String) (config : netFilterConfig)
    (t : FilterTable)
    (hC : existChainTable containersChainName t = true)
    (hR : existChainTable containerRejectChainName t = true)
    (hv : existChainTable ( vethChainPrefix ++ ifaceName) t = true) :
    applyFiltering iptablesBackend ⟨ifaceName, some config⟩ t =
      (t, some (.backend ["-N", vethChainPrefix ++ ifaceName]
        "iptables: Chain already exists.")) := by
  rw [applyFiltering_checksPass _ _ _ hC hR, applyFilteringRules_split]
  have hraw : iptablesBackend.raw ["-N", vethChainPrefix ++ ifaceName] t =
      (t, some "iptables: Chain already exists.") := by
    rw [show iptablesBackend.raw = rawTable from rfl, rawTable_create, if_pos hv]
  have hstep : applyIPTablesRule iptablesBackend ["-N", vethChainPrefix ++ ifaceName] t =
      (t, some (.backend ["-N", vethChainPrefix ++ ifaceName]
        "iptables: Chain already exists.")) := by
    unfold applyIPTablesRule
    rw [hraw]
  simp only [applyRuleList, hstep]

/-- Successful apply: with both base chains present and the dedicated chain
absent, the final table appends the populated dedicated chain and prepends
the jump rule to `CONTAINERS`. -/
theorem applyFiltering_run (ifaceName : String) (config : netFilterConfig)
    (t : FilterTable)
    (hC : existChainTable containersChainName t = true)
    (hR : existChainTable containerRejectChainName t = true)
    (hv : existChainTable ( vethChainPrefix ++ ifaceName) t = false) :
    applyFiltering iptablesBackend ⟨ifaceName, some config⟩ t =
      (⟨(updateChain containersChainName
            (["-o", ifaceName, "-j", vethChainPrefix ++ ifaceName] :: ·) t).chains ++
          [( vethChainPrefix ++ ifaceName, acceptTails config)]⟩, none) := by
  have hvnone : t.chains.lookup ( vethChainPrefix ++ ifaceName) = none := by
    rcases hl : t.chains.lookup ( vethChainPrefix ++ ifaceName) with _ | v
    · rfl
    · rw [existChainTable, hl] at hv
      simp at hv
  have hne : vethChainPrefix ++ ifaceName ≠ containersChainName := by
    intro he
    rw [he] at hv
    rw [hC] at hv
    cases hv
  rw [applyFiltering_checksPass _ _ _ hC hR, applyFilteringRules_split]
  have hrawN : iptablesBackend.raw ["-N", vethChainPrefix ++ ifaceName] t =
      (⟨t.chains ++ [( vethChainPrefix ++ ifaceName, [])]⟩, none) := by
    rw [show iptablesBackend.raw = rawTable from rfl, rawTable_create,
      if_neg (by simp [hv])]
  have hstepN : applyIPTablesRule iptablesBackend ["-N", vethChainPrefix ++ ifaceName] t =
      (⟨t.chains ++ [( vethChainPrefix ++ ifaceName, [])]⟩, none) := by
    unfold applyIPTablesRule
    rw [hrawN]
  simp only [applyRuleList, hstepN]
  have hvt1 : existChainTable ( vethChainPrefix ++ ifaceName)
      (⟨t.chains ++ [( vethChainPrefix ++ ifaceName, [])]⟩ : FilterTable) = true := by
    simp only [existChainTable]
    rw [lookup_append_none _ _ _ hvnone, lookup_cons, if_pos (by simp)]
    rfl
  have hbody := applyRuleList_appendBody ( vethChainPrefix ++ ifaceName)
    (acceptTails config) ⟨t.chains ++ [( vethChainPrefix ++ ifaceName, [])]⟩ hvt1
  rw [applyRuleList_append_ok iptablesBackend _ _ _ _ hbody]
  rw [updateChain_append_self _ _ _ _ hvnone]
  simp only [List.nil_append]
  have hCt2 : existChainTable containersChainName
      (⟨t.chains ++ [( vethChainPrefix ++ ifaceName, acceptTails config)]⟩ :
        FilterTable) = true := by
    obtain ⟨old, hold⟩ : ∃ v, t.chains.lookup containersChainName = some v := by
      rcases hl : t.chains.lookup containersChainName with _ | v
      · rw [existChainTable, hl] at hC
        simp at hC
      · exact ⟨v, rfl⟩
    simp only [existChainTable]
    rw [lookup_append_some _ _ _ _ hold]
    rfl
  have hrawI : iptablesBackend.raw
      ["-I", containersChainName, "1", "-o", ifaceName, "-j",
        vethChainPrefix ++ ifaceName]
      (⟨t.chains ++ [( vethChainPrefix ++ ifaceName, acceptTails config)]⟩ :
        FilterTable) =
      (updateChain containersChainName
        (["-o", ifaceName, "-j", vethChainPrefix ++ ifaceName] :: ·)
        ⟨t.chains ++ [( vethChainPrefix ++ ifaceName, acceptTails config)]⟩, none) := by
    rw [show iptablesBackend.raw = rawTable from rfl, rawTable_insert1, if_pos hCt2]
  have hstepI : applyIPTablesRule iptablesBackend
      ["-I", containersChainName, "1", "-o", ifaceName, "-j",
        vethChainPrefix ++ ifaceName]
      (⟨t.chains ++ [( vethChainPrefix ++ ifaceName, acceptTails config)]⟩ :
        FilterTable) =
      (updateChain containersChainName
        (["-o", ifaceName, "-j", vethChainPrefix ++ ifaceName] :: ·)
        ⟨t.chains ++ [( vethChainPrefix ++ ifaceName, acceptTails config)]⟩, none) := by
    unfold applyIPTablesRule
    rw [hrawI]
  simp only [applyRuleList, hstepI]
  rw [updateChain_append_entry _ _ _ _ _ hne]

/-- `removeFiltering` with a config runs its three-command program through
the sequential executor. -/
theorem removeFiltering_progRun (ifaceName : String) (config : netFilterConfig)
    (s : FilterTable) :
    removeFiltering iptablesBackend ⟨ifaceName, some config⟩ s =
      applyRuleList iptablesBackend
        [["-D", containersChainName, "-o", ifaceName, "-j",
            vethChainPrefix ++ ifaceName],
         ["-F", vethChainPrefix ++ ifaceName],
         ["-X", vethChainPrefix ++ ifaceName]] s := by
  simp [removeFiltering, iptablesRules.apply, removeFilteringRules,
    iptablesRules.addRule]

/-- Successful remove from the post-apply table: the jump rule is deleted
(restoring `CONTAINERS` exactly), the dedicated chain is flushed and
deleted, recovering the original table. -/
theorem removeFiltering_run (ifaceName : String) (config : netFilterConfig)
    (t : FilterTable) (old body : List (List String))
    (hC : t.chains.lookup containersChainName = some old)
    (hv : t.chains.lookup ( vethChainPrefix ++ ifaceName) = none) :
    removeFiltering iptablesBackend ⟨ifaceName, some config⟩
      (⟨(updateChain containersChainName
            (["-o", ifaceName, "-j", vethChainPrefix ++ ifaceName] :: ·) t).chains ++
          [( vethChainPrefix ++ ifaceName, body)]⟩ : FilterTable) = (t, none) := by
  have hne : vethChainPrefix ++ ifaceName ≠ containersChainName := by
    intro he
    rw [he, hC] at hv
    cases hv
  rw [removeFiltering_progRun]
  -- the delete step
  have hlookC : ((updateChain containersChainName
        (["-o", ifaceName, "-j", vethChainPrefix ++ ifaceName] :: ·) t).chains ++
      [( vethChainPrefix ++ ifaceName, body)]).lookup containersChainName =
      some (["-o", ifaceName, "-j", vethChainPrefix ++ ifaceName] :: old) := by
    apply lookup_append_some
    simp only [updateChain]
    rw [lookup_map_updEntry_self, hC]
    rfl
  have hrawD : iptablesBackend.raw
      ["-D", containersChainName, "-o", ifaceName, "-j", vethChainPrefix ++ ifaceName]
      (⟨(updateChain containersChainName
            (["-o", ifaceName, "-j", vethChainPrefix ++ ifaceName] :: ·) t).chains ++
          [( vethChainPrefix ++ ifaceName, body)]⟩ : FilterTable) =
      (updateChain containersChainName
        (·.erase ["-o", ifaceName, "-j", vethChainPrefix ++ ifaceName])
        ⟨(updateChain containersChainName
            (["-o", ifaceName, "-j", vethChainPrefix ++ ifaceName] :: ·) t).chains ++
          [( vethChainPrefix ++ ifaceName, body)]⟩, none) := by
    rw [show iptablesBackend.raw = rawTable from rfl, rawTable_delete]
    show (match (((updateChain containersChainName
        (["-o", ifaceName, "-j", vethChainPrefix ++ ifaceName] :: ·) t).chains ++
        [( vethChainPrefix ++ ifaceName, body)]).lookup containersChainName) with
      | some rules =>
        if ["-o", ifaceName, "-j", vethChainPrefix ++ ifaceName] ∈ rules then _ else _
      | none => _) = _
    rw [hlookC]
    exact if_pos (List.mem_cons_self _ _)
  have hD : updateChain containersChainName
      (·.erase ["-o", ifaceName, "-j", vethChainPrefix ++ ifaceName])
      (⟨(updateChain containersChainName
            (["-o", ifaceName, "-j", vethChainPrefix ++ ifaceName] :: ·) t).chains ++
          [( vethChainPrefix ++ ifaceName, body)]⟩ : FilterTable) =
      ⟨t.chains ++ [( vethChainPrefix ++ ifaceName, body)]⟩ := by
    rw [updateChain_append_entry _ _ _ _ _ hne, updateChain_comp]
    have hid : (fun rules : List (List String) =>
        ((["-o", ifaceName, "-j", vethChainPrefix ++ ifaceName] :: rules).erase
          ["-o", ifaceName, "-j", vethChainPrefix ++ ifaceName])) =
        fun rules : List (List String) => rules :=
      funext fun rules => List.erase_cons_head _ rules
    rw [hid, updateChain_id]
  have hstepD : applyIPTablesRule iptablesBackend
      ["-D", containersChainName, "-o", ifaceName, "-j", vethChainPrefix ++ ifaceName]
      (⟨(updateChain containersChainName
            (["-o", ifaceName, "-j", vethChainPrefix ++ ifaceName] :: ·) t).chains ++
          [( vethChainPrefix ++ ifaceName, body)]⟩ : FilterTable) =
      (⟨t.chains ++ [( vethChainPrefix ++ ifaceName, body)]⟩, none) := by
    unfold applyIPTablesRule
    rw [hrawD, hD]
  simp only [applyRuleList, hstepD]
  -- the flush step
  have hvex : existChainTable ( vethChainPrefix ++ ifaceName)
      (⟨t.chains ++ [( vethChainPrefix ++ ifaceName, body)]⟩ : FilterTable) = true := by
    simp only [existChainTable]
    rw [lookup_append_none _ _ _ hv, lookup_cons, if_pos (by simp)]
    rfl
  have hrawF : iptablesBackend.raw ["-F", vethChainPrefix ++ ifaceName]
      (⟨t.chains ++ [( vethChainPrefix ++ ifaceName, body)]⟩ : FilterTable) =
      (⟨t.chains ++ [( vethChainPrefix ++ ifaceName, [])]⟩, none) := by
    rw [show iptablesBackend.raw = rawTable from rfl, rawTable_flush, if_pos hvex,
      updateChain_append_self _ _ _ _ hv]
  have hstepF : applyIPTablesRule iptablesBackend ["-F", vethChainPrefix ++ ifaceName]
      (⟨t.chains ++ [( vethChainPrefix ++ ifaceName, body)]⟩ : FilterTable) =
      (⟨t.chains ++ [( vethChainPrefix ++ ifaceName, [])]⟩, none) := by
    unfold applyIPTablesRule
    rw [hrawF]
  simp only [applyRuleList, hstepF]
  -- the delete-chain step
  have hlookV : ((t.chains ++ [( vethChainPrefix ++ ifaceName, [])]).lookup
      ( vethChainPrefix ++ ifaceName)) = some [] := by
    rw [lookup_append_none _ _ _ hv, lookup_cons, if_pos (by simp)]
  have hrawX : iptablesBackend.raw ["-X", vethChainPrefix ++ ifaceName]
      (⟨t.chains ++ [( vethChainPrefix ++ ifaceName, [])]⟩ : FilterTable) =
      (t, none) := by
    rw [show iptablesBackend.raw = rawTable from rfl, rawTable_deleteChain]
    show (match ((t.chains ++ [( vethChainPrefix ++ ifaceName, [])]).lookup
        ( vethChainPrefix ++ ifaceName)) with
      | some [] => _
      | some (_ :: _) => _
      | none => _) = _
    rw [hlookV]
    show (⟨(t.chains ++ [( vethChainPrefix ++ ifaceName, [])]).filter
      fun e => e.1 != vethChainPrefix ++ ifaceName⟩, none) = ((t : FilterTable), none)
    rw [List.filter_append, filter_keys_ne _ _ (lookup_none_keys _ _ hv)]
    simp
  have hstepX : applyIPTablesRule iptablesBackend ["-X", vethChainPrefix ++ ifaceName]
      (⟨t.chains ++ [( vethChainPrefix ++ ifaceName, [])]⟩ : FilterTable) =
      (t, none) := by
    unfold applyIPTablesRule
    rw [hrawX]
  simp only [applyRuleList, hstepX]

/-- C7: for a filter with an allowlist, a successful `applyFiltering`
followed by a successful `removeFiltering` leaves the `CONTAINERS` base
chain's rules exactly as before the apply (hence equal as a set of rules),
and the dedicated per-interface chain no longer exists. -/
theorem apply_remove_roundtrip (ifaceName : String) (config : netFilterConfig)
    (t t1 t2 : FilterTable)
    (h1 : applyFiltering iptablesBackend ⟨ifaceName, some config⟩ t = (t1, none))
    (h2 : removeFiltering iptablesBackend ⟨ifaceName, some config⟩ t1 = (t2, none)) :
    t2.chains.lookup containersChainName = t.chains.lookup containersChainName ∧
      existChainTable ( vethChainPrefix ++ ifaceName) t2 = false := by
  have hC : existChainTable containersChainName t = true := by
    by_contra hc
    rw [Bool.not_eq_true] at hc
    simp [applyFiltering, chainExists, iptablesBackend, hc] at h1
  have hR : existChainTable containerRejectChainName t = true := by
    by_contra hc
    rw [Bool.not_eq_true] at hc
    simp [applyFiltering, chainExists, iptablesBackend, hC, hc] at h1
  have hv : existChainTable ( vethChainPrefix ++ ifaceName) t = false := by
    rcases hb : existChainTable ( vethChainPrefix ++ ifaceName) t with _ | _
    · rfl
    · rw [applyFiltering_vethExists _ _ _ hC hR hb] at h1
      simp at h1
  obtain rfl : t1 = ⟨(updateChain containersChainName
      (["-o", ifaceName, "-j", vethChainPrefix ++ ifaceName] :: ·) t).chains ++
      [( vethChainPrefix ++ ifaceName, acceptTails config)]⟩ := by
    rw [applyFiltering_run _ _ _ hC hR hv] at h1
    exact (Prod.mk.injEq _ _ _ _ ▸ h1).1.symm
  have hvnone : t.chains.lookup ( vethChainPrefix ++ ifaceName) = none := by
    rcases hl : t.chains.lookup ( vethChainPrefix ++ ifaceName) with _ | v
    · rfl
    · rw [existChainTable, hl] at hv
      simp at hv
  obtain ⟨old, hold⟩ : ∃ v, t.chains.lookup containersChainName = some v := by
    rcases hl : t.chains.lookup containersChainName with _ | v
    · rw [existChainTable, hl] at hC
      simp at hC
    · exact ⟨v, rfl⟩
  obtain rfl : t2 = t := by
    rw [removeFiltering_run ifaceName config t old (acceptTails config) hold hvnone] at h2
    exact (Prod.mk.injEq _ _ _ _ ▸ h2).1.symm
  exact ⟨rfl, hv⟩

/-- Witness for C7: apply then remove on a two-base-chain table restores it
and the dedicated chain is gone. -/
theorem apply_remove_roundtrip_witness :
    (FilterTable.mk [(containersChainName, [["-j", "DROP"]]),
        (containerRejectChainName, [])]).chains.lookup containersChainName =
      (FilterTable.mk [(containersChainName, [["-j", "DROP"]]),
        (containerRejectChainName, [])]).chains.lookup containersChainName ∧
      existChainTable ( vethChainPrefix ++ "eth0")
        (FilterTable.mk [(containersChainName, [["-j", "DROP"]]),
          (containerRejectChainName, [])]) = false := by
  have h := apply_remove_roundtrip "eth0" ⟨[⟨.v4 167772161, 32⟩], []⟩
    ⟨[(containersChainName, [["-j", "DROP"]]), (containerRejectChainName, [])]⟩
    (applyFiltering iptablesBackend ⟨"eth0", some ⟨[⟨.v4 167772161, 32⟩], []⟩⟩
      ⟨[(containersChainName, [["-j", "DROP"]]), (containerRejectChainName, [])]⟩).1
    (removeFiltering iptablesBackend ⟨"eth0", some ⟨[⟨.v4 167772161, 32⟩], []⟩⟩
      (applyFiltering iptablesBackend ⟨"eth0", some ⟨[⟨.v4 167772161, 32⟩], []⟩⟩
        ⟨[(containersChainName, [["-j", "DROP"]]),
          (containerRejectChainName, [])]⟩).1).1
    (by decide) (by decide)
  exact h

end Routed
